import Mathlib

/-!
Verification of the record normalization and set reconciliation engine of the
ig-discord repository (src/csv_parser.py) against its specification.

The Python source is shallowly embedded as executable Lean definitions.
Modelling conventions:
  - Python strings are Lean String values, manipulated through their
    underlying List Char; Python str.lower / str.upper / str.strip are
    modelled on the ASCII range (Char.toLower / Char.toUpper are ASCII
    transformations), matching Python for all ASCII data.
  - The regular expression used by parse_filename is embedded as an explicit
    backtracking matcher specialised to that pattern, with the same search
    order as the Python engine: literal head, lazy one-or-more group, greedy
    digit group, ordered alternation, prefix (re.match) semantics.
  - pandas read_csv and bytes.decode are library calls whose sources are not
    part of the repository; they are modelled from the spec as a UTF-8
    decoder with BOM stripping and a comma delimited reader with minimal
    quoting, failing exactly on undecodable or untabular input. pandas dtype
    inference is not modelled: every cell is the literal field text, an empty
    field being the missing value NaN.
-/

/-! ## Python string primitives (ASCII model) -/

/-- Python str.lower, ASCII model. -/
def pyLower (s : String) : String := ⟨s.data.map Char.toLower⟩

/-- Python str.upper, ASCII model. -/
def pyUpper (s : String) : String := ⟨s.data.map Char.toUpper⟩

/-- Whitespace characters removed by Python str.strip, ASCII model. -/
def pySpace (c : Char) : Bool :=
  c = ' ' || c = '\t' || c = '\n' || c = '\r' || c = '\x0b' || c = '\x0c'

/-- Python str.strip, ASCII model. -/
def pyStrip (s : String) : String :=
  ⟨((s.data.dropWhile pySpace).reverse.dropWhile pySpace).reverse⟩

/-- Does the character list start with the given pattern. -/
def isSubAt : List Char → List Char → Bool
  | [], _ => true
  | _ :: _, [] => false
  | a :: as, b :: bs => a = b && isSubAt as bs

/-- Python substring containment, pat in s, on character lists. -/
def hasSub (pat : List Char) : List Char → Bool
  | [] => pat.isEmpty
  | c :: cs => isSubAt pat (c :: cs) || hasSub pat cs

/-- Case insensitive comparison of two characters, ASCII model. -/
def eqCI (a b : Char) : Bool := a.toLower = b.toLower

/-- Consume a literal case-insensitively; returns the rest on success. -/
def dropLitCI : List Char → List Char → Option (List Char)
  | [], s => some s
  | _ :: _, [] => none
  | p :: ps, c :: cs => if eqCI p c then dropLitCI ps cs else none

/-- Value of a run of ASCII digit characters, as Python int() reads it. -/
def digitsToNat (ds : List Char) : Nat :=
  ds.foldl (fun n c => n * 10 + (c.toNat - 48)) 0

/-! ## Filename Metadata Extractor (parse_filename, csv_parser.py lines 7-44)

The regular expression IGFollow_(.+?)_(\d+)_(followers|following)\.csv is
applied with re.match (anchored at the start only) and re.IGNORECASE.
The Python backslash-d is modelled as the ASCII digits (non-ASCII Unicode
digits are outside the model). -/

/-- Attempt the tail (following)\.csv of the alternation at cs; the captured
keyword is the actual input text, nine characters long. -/
def kwFollowing (cs : List Char) : Option (List Char) :=
  match dropLitCI "following".data cs with
  | some r =>
    match dropLitCI ".csv".data r with
    | some _ => some (cs.take 9)
    | none => none
  | none => none

/-- Ordered alternation (followers|following) followed by the literal .csv,
as the regex engine tries it: followers first, then following. -/
def kwAlt (cs : List Char) : Option (List Char) :=
  match dropLitCI "followers".data cs with
  | some r =>
    match dropLitCI ".csv".data r with
    | some _ => some (cs.take 9)
    | none => kwFollowing cs
  | none => kwFollowing cs

/-- Match (\d+)_(followers|following)\.csv at cs. The digit group is greedy;
a shorter digit run cannot succeed because the character after it would be a
digit, not the required underscore, so only the maximal run is tried. -/
def contDigits (cs : List Char) : Option (List Char × List Char) :=
  let ds := cs.takeWhile (fun c => c.isDigit)
  if ds.isEmpty then none
  else
    match cs.drop ds.length with
    | '_' :: r2 => (kwAlt r2).map (fun kw => (ds, kw))
    | _ => none

/-- Lazy search for the handle group (.+?): the shortest nonempty handle whose
continuation _(\d+)_(followers|following)\.csv succeeds is taken. The dot of
the regex does not match a newline. Returns (handle, digits, keyword). -/
def igSearch : List Char → List Char → Option (List Char × List Char × List Char)
  | _, [] => none
  | acc, c :: rest =>
    if c = '\n' then none
    else
      match rest with
      | '_' :: r2 =>
        (match contDigits r2 with
         | some (ds, kw) => some ((c :: acc).reverse, ds, kw)
         | none => igSearch (c :: acc) rest)
      | _ => igSearch (c :: acc) rest

/-- The full anchored match of IGFollow_(.+?)_(\d+)_(followers|following)\.csv
against a prefix of the filename, groups returned as captured. -/
def igfollowMatch (filename : String) : Option (String × Nat × String) :=
  match dropLitCI "IGFollow_".data filename.data with
  | none => none
  | some cs =>
    (igSearch [] cs).map (fun r => (⟨r.1⟩, digitsToNat r.2.1, ⟨r.2.2⟩))

/-- Result shape of parse_filename: ig_username and count stay absent unless
the structured pattern matches. -/
structure FilenameMeta where
  ig_username : Option String
  count : Option Nat
  file_type : String
deriving Repr, DecidableEq

/-- parse_filename from csv_parser.py: substring based file type detection,
then the structured IGFollow pattern overriding all three fields. -/
def parse_filename (filename : String) : FilenameMeta :=
  let fl := pyLower filename
  let ft0 : String :=
    if hasSub "following".data fl.data then "following"
    else if hasSub "follower".data fl.data then "followers"
    else "followers"
  match igfollowMatch filename with
  | some r =>
    { ig_username := some r.1, count := some r.2.1, file_type := pyLower r.2.2 }
  | none => { ig_username := none, count := none, file_type := ft0 }

/-! ## Content decoding (csv_parser.py lines 47-57)

content.decode with the utf-8-sig codec: strip a leading byte order mark,
then strict UTF-8 decoding (overlong encodings, surrogates and values above
U+10FFFF are rejected). pd.read_csv over a StringIO is modelled as a comma
delimited reader: the first nonblank line is the header, blank lines are
skipped, a row with more fields than the header fails, a shorter row is
padded with missing values, an empty field is the missing value. -/

deriving instance DecidableEq for Except

/-- The single error the engine surfaces, covering undecodable bytes and
untabular content. -/
inductive ParseError where
  | decodeError : ParseError
  | csvError : ParseError
deriving Repr, DecidableEq

/-- Raw input of parse_instagram_csv: Python bytes or str. -/
inductive Content where
  | bytes : List Nat → Content
  | text : String → Content
deriving Repr, DecidableEq

/-- Is the byte a UTF-8 continuation byte. -/
def contByte (b : Nat) : Bool := 0x80 ≤ b && b < 0xC0

/-- Strict UTF-8 decoding of a byte list. -/
def utf8DecodeAux : List Nat → Option (List Char)
  | [] => some []
  | b :: rest =>
    if b < 0x80 then
      (utf8DecodeAux rest).map (fun cs => Char.ofNat b :: cs)
    else if 0xC2 ≤ b && b ≤ 0xDF then
      match rest with
      | b2 :: rest2 =>
        if contByte b2 then
          (utf8DecodeAux rest2).map
            (fun cs => Char.ofNat ((b - 0xC0) * 0x40 + (b2 - 0x80)) :: cs)
        else none
      | [] => none
    else if 0xE0 ≤ b && b ≤ 0xEF then
      match rest with
      | b2 :: b3 :: rest2 =>
        let lo2 := if b = 0xE0 then 0xA0 else 0x80
        let hi2 := if b = 0xED then 0x9F else 0xBF
        if lo2 ≤ b2 && b2 ≤ hi2 && contByte b3 then
          (utf8DecodeAux rest2).map
            (fun cs =>
              Char.ofNat ((b - 0xE0) * 0x1000 + (b2 - 0x80) * 0x40 + (b3 - 0x80)) :: cs)
        else none
      | _ => none
    else if 0xF0 ≤ b && b ≤ 0xF4 then
      match rest with
      | b2 :: b3 :: b4 :: rest2 =>
        let lo2 := if b = 0xF0 then 0x90 else 0x80
        let hi2 := if b = 0xF4 then 0x8F else 0xBF
        if lo2 ≤ b2 && b2 ≤ hi2 && contByte b3 && contByte b4 then
          (utf8DecodeAux rest2).map
            (fun cs =>
              Char.ofNat
                ((b - 0xF0) * 0x40000 + (b2 - 0x80) * 0x1000 +
                  (b3 - 0x80) * 0x40 + (b4 - 0x80)) :: cs)
        else none
      | _ => none
    else none

/-- Strip the UTF-8 byte order mark, as the utf-8-sig codec does. -/
def stripBom : List Nat → List Nat
  | 0xEF :: 0xBB :: 0xBF :: rest => rest
  | bs => bs

/-- The isinstance(content, bytes) branch of parse_instagram_csv: bytes are
decoded with utf-8-sig, text is passed through untouched. -/
def decodeContent : Content → Except ParseError String
  | .text s => .ok s
  | .bytes bs =>
    match utf8DecodeAux (stripBom bs) with
    | some cs => .ok ⟨cs⟩
    | none => .error .decodeError

/-! ## Tabular reading -/

/-- A missing cell (pandas NaN) is none. -/
abbrev Cell := Option String

/-- The tabular content handed to the normalizer: a header row and data rows. -/
structure Table where
  headers : List String
  rows : List (List Cell)
deriving Repr, DecidableEq

/-- Split a string into lines at the newline character. -/
def splitLinesAux : List Char → List Char → List String → List String
  | acc, [], out => (( ⟨acc.reverse⟩ : String) :: out).reverse
  | acc, c :: rest, out =>
    if c = '\n' then splitLinesAux [] rest ((⟨acc.reverse⟩ : String) :: out)
    else splitLinesAux (c :: acc) rest out

/-- Lines of the content. -/
def splitLines (s : String) : List String := splitLinesAux [] s.data []

/-- States of the field scanner: inside a plain field, inside a quoted field,
or just after the closing quote of a quoted field. -/
inductive QMode where
  | plain : QMode
  | quoted : QMode
  | post : QMode
deriving Repr, DecidableEq

/-- One line split into comma separated fields. A double quote opens a quoted
field only at the start of a field; a doubled quote inside a quoted field is
an escaped quote; a lone closing quote must be followed by a comma or the end
of the line; a quote left open at the end of the line is malformed. -/
def splitLineAux : QMode → Bool → List Char → List Char → List (List Char) →
    Option (List (List Char))
  | .plain, _, acc, [], done => some ((acc.reverse :: done).reverse)
  | .plain, atStart, acc, c :: rest, done =>
    if c = ',' then splitLineAux .plain true [] rest (acc.reverse :: done)
    else if c = '"' && atStart then splitLineAux .quoted false [] rest done
    else splitLineAux .plain false (c :: acc) rest done
  | .quoted, _, _, [], _ => none
  | .quoted, _, acc, '"' :: '"' :: rest, done =>
    splitLineAux .quoted false ('"' :: acc) rest done
  | .quoted, _, acc, '"' :: rest, done => splitLineAux .post false acc rest done
  | .quoted, _, acc, c :: rest, done => splitLineAux .quoted false (c :: acc) rest done
  | .post, _, acc, [], done => some ((acc.reverse :: done).reverse)
  | .post, _, acc, c :: rest, done =>
    if c = ',' then splitLineAux .plain true [] rest (acc.reverse :: done)
    else none

/-- Fields of one CSV line, or none when the quoting is malformed. -/
def splitLine (cs : List Char) : Option (List (List Char)) :=
  splitLineAux .plain true [] cs []

/-- An empty field is a missing value, any other field is its text. -/
def toCell (f : List Char) : Cell :=
  if f.isEmpty then none else some ⟨f⟩

/-- Pad a row on the right with missing values up to the header width. -/
def padCells (n : Nat) (cs : List Cell) : List Cell :=
  cs ++ List.replicate (n - cs.length) none

/-- Data rows: a row wider than the header is an error, a narrower row is
padded with missing values. -/
def readRows (ncols : Nat) : List String → Except ParseError (List (List Cell))
  | [] => .ok []
  | l :: ls =>
    match splitLine l.data with
    | none => .error .csvError
    | some fs =>
      if ncols < fs.length then .error .csvError
      else
        match readRows ncols ls with
        | .error e => .error e
        | .ok rest => .ok (padCells ncols (fs.map toCell) :: rest)

/-- The tabular reader: blank lines are skipped, the first line is the header,
content with no lines at all is an error. -/
def readCSV (text : String) : Except ParseError Table :=
  match (splitLines text).filter (fun l => ¬ l.data.isEmpty) with
  | [] => .error .csvError
  | hline :: rest =>
    match splitLine hline.data with
    | none => .error .csvError
    | some hfields =>
      let headers : List String := hfields.map (fun f => ⟨f⟩)
      match readRows headers.length rest with
      | .error e => .error e
      | .ok rows => .ok { headers := headers, rows := rows }

/-! ## Column Normalizer and Record Builder (csv_parser.py lines 59-96) -/

/-- Header normalization of line 60: strip, lower, replace spaces with
underscores. -/
def normalizeHeader (s : String) : String :=
  ⟨(pyLower (pyStrip s)).data.map (fun c => if c = ' ' then '_' else c)⟩

/-- The expected columns mapping of lines 63-71, in source order: canonical
name paired with its ordered accepted spellings. -/
def column_map : List (String × List String) :=
  [("user_id", ["user_id", "userid", "id"]),
   ("username", ["username", "user_name", "handle"]),
   ("fullname", ["fullname", "full_name", "name", "display_name"]),
   ("followed_by_you", ["followed_by_you", "following", "you_follow"]),
   ("is_verified", ["is_verified", "verified"]),
   ("profile_url", ["profile_url", "url", "profile"]),
   ("avatar_url", ["avatar_url", "avatar", "picture"])]

/-- The inner loop of lines 76-79: the first variant present among the
columns, if any. -/
def chooseVariant (cols : List String) (variants : List String) : Option String :=
  variants.find? (fun v => cols.contains v)

/-- The rename_map dict of lines 74-79: for each canonical field, one entry
from its first present variant to the canonical name. -/
def rename_map (cols : List String) : List (String × String) :=
  column_map.filterMap (fun p => (chooseVariant cols p.2).map (fun v => (v, p.1)))

/-- df.rename applied to one column label: renamed when it is a key of the
rename map, kept otherwise. -/
def renameHdr (cols : List String) (h : String) : String :=
  ((rename_map cols).lookup h).getD h

/-- df.rename over all column labels; every occurrence of a key is renamed. -/
def applyRename (cols : List String) : List String := cols.map (renameHdr cols)

/-- df.fillna): a missing cell becomes the empty string. -/
def fillCell (c : Cell) : String := c.getD ""

/-- row.get(name, default empty string) over the named cells of a row; with
distinct labels this is the pandas Series lookup (duplicate labels, where
pandas would return a sub-Series, are outside the model). -/
def rowGet : List (String × String) → String → String
  | [], _ => ""
  | (h, v) :: rest, name => if h = name then v else rowGet rest name

/-- The canonical record of lines 88-95: six string fields, always present. -/
structure CanonicalRecord where
  user_id : String
  username : String
  fullname : String
  followed_by_you : String
  is_verified : String
  profile_url : String
deriving Repr, DecidableEq

/-- The record built from one row, lines 88-95: each field read by canonical
name with empty default, the two relationship flags uppercased. -/
def buildRecord (cells : List (String × String)) : CanonicalRecord :=
  { user_id := rowGet cells "user_id"
    username := rowGet cells "username"
    fullname := rowGet cells "fullname"
    followed_by_you := pyUpper (rowGet cells "followed_by_you")
    is_verified := pyUpper (rowGet cells "is_verified")
    profile_url := rowGet cells "profile_url" }

/-- The final column labels of a table after normalization and renaming. -/
def finalHeaders (t : Table) : List String :=
  applyRename (t.headers.map normalizeHeader)

/-- The records list of lines 86-96. -/
def tableRecords (t : Table) : List CanonicalRecord :=
  let hs := finalHeaders t
  t.rows.map (fun row => buildRecord (hs.zip (row.map fillCell)))

/-! ## Metadata Aggregator (csv_parser.py lines 98-116) -/

/-- The metadata dict: the four counts always, the two filename entries only
when a nonempty filename was supplied (outer Option is key presence;
ig_username may be present with value None, hence the nested Option). -/
structure BatchMeta where
  total : Nat
  following_back : Nat
  not_following_back : Nat
  verified : Nat
  ig_username : Option (Option String)
  detected_type : Option String
deriving Repr, DecidableEq

/-- Lines 98-116: counts over the records, then the filename metadata merged
in only when the filename is truthy (not None and not empty). -/
def computeMeta (records : List CanonicalRecord) (filename : Option String) :
    BatchMeta :=
  let base : BatchMeta :=
    { total := records.length
      following_back := records.countP (fun r => r.followed_by_you == "YES")
      not_following_back := records.countP (fun r => r.followed_by_you == "NO")
      verified := records.countP (fun r => r.is_verified == "YES")
      ig_username := none
      detected_type := none }
  match filename with
  | none => base
  | some f =>
    if f = "" then base
    else
      let fm := parse_filename f
      { base with ig_username := some fm.ig_username,
                  detected_type := some fm.file_type }

/-- The pure tail of parse_instagram_csv, from the parsed table to the
returned pair. -/
def parseTable (t : Table) (filename : Option String) :
    List CanonicalRecord × BatchMeta :=
  (tableRecords t, computeMeta (tableRecords t) filename)

/-- parse_instagram_csv, lines 47-117: decode bytes if needed, read the
tabular content, then the pure pipeline. -/
def parse_instagram_csv (content : Content) (filename : Option String) :
    Except ParseError (List CanonicalRecord × BatchMeta) :=
  match decodeContent content with
  | .error e => .error e
  | .ok s =>
    match readCSV s with
    | .error e => .error e
    | .ok t => .ok (parseTable t filename)

/-! ## Relationship Classifier (csv_parser.py lines 120-132) -/

/-- The five buckets returned by analyze_follow_status. -/
structure RelationshipBuckets where
  followers : List CanonicalRecord
  you_follow_back : List CanonicalRecord
  you_dont_follow_back : List CanonicalRecord
  «mutual» : List CanonicalRecord
  fans : List CanonicalRecord
deriving Repr, DecidableEq

/-- analyze_follow_status: the whole input, the YES subset twice and the NO
subset twice. -/
def analyze_follow_status (records : List CanonicalRecord) : RelationshipBuckets :=
  let following_you := records
  let you_follow := records.filter (fun r => r.followed_by_you == "YES")
  let you_dont_follow := records.filter (fun r => r.followed_by_you == "NO")
  { followers := following_you
    you_follow_back := you_follow
    you_dont_follow_back := you_dont_follow
    «mutual» := you_follow
    fans := you_dont_follow }

/-! ## Set Reconciler (csv_parser.py lines 135-180) -/

/-- find_non_followers: the subset of following whose lowercased username is
not among the lowercased follower usernames. -/
def find_non_followers (followers_records following_records : List CanonicalRecord) :
    List CanonicalRecord :=
  let follower_usernames := followers_records.map (fun r => pyLower r.username)
  following_records.filter
    (fun r => !(follower_usernames.contains (pyLower r.username)))

/-- find_fans: the subset of followers whose lowercased username is not among
the lowercased following usernames. -/
def find_fans (followers_records following_records : List CanonicalRecord) :
    List CanonicalRecord :=
  let following_usernames := following_records.map (fun r => pyLower r.username)
  followers_records.filter
    (fun r => !(following_usernames.contains (pyLower r.username)))

/-- Re-serialization of built records to a table with canonical headers, for
the idempotence property of the spec. -/
def canonicalHeaders : List String :=
  ["user_id", "username", "fullname", "followed_by_you", "is_verified", "profile_url"]

/-- The table whose rows are the field values of the given records under the
canonical headers. -/
def serializeTable (records : List CanonicalRecord) : Table :=
  { headers := canonicalHeaders
    rows := records.map (fun r =>
      [some r.user_id, some r.username, some r.fullname,
       some r.followed_by_you, some r.is_verified, some r.profile_url]) }

/-- A record carrying only a username, as in the reconciliation examples of
the spec. -/
def mkRec (u : String) : CanonicalRecord := ⟨"", u, "", "", "", ""⟩

/-- Replace each cell of column i by its image under f, leaving the headers
and every other column unchanged; used to state that a column has no
influence on the records. -/
def mapColumn (t : Table) (i : Nat) (f : Cell → Cell) : Table :=
  { headers := t.headers
    rows := t.rows.map (fun row =>
      match row.get? i with
      | some c => row.set i (f c)
      | none => row) }

/-! ## Character and string lemmas -/

theorem charToNat_ofNat_valid (n : Nat) (h : n.isValidChar) :
    (Char.ofNat n).toNat = n := by
  rw [Char.ofNat, dif_pos h]
  rfl

theorem toUpper_toUpper (c : Char) : c.toUpper.toUpper = c.toUpper := by
  unfold Char.toUpper
  by_cases h : c.toNat ≥ 97 ∧ c.toNat ≤ 122
  · rw [if_pos h]
    have hv : (c.toNat - 32).isValidChar := Or.inl (by omega)
    have ht : (Char.ofNat (c.toNat - 32)).toNat = c.toNat - 32 :=
      charToNat_ofNat_valid _ hv
    rw [if_neg (by omega)]
  · rw [if_neg h, if_neg h]

theorem toUpper_toLower (c : Char) : c.toLower.toUpper = c.toUpper := by
  unfold Char.toUpper Char.toLower
  by_cases h : c.toNat ≥ 65 ∧ c.toNat ≤ 90
  · rw [if_pos h]
    have hv : (c.toNat + 32).isValidChar := Or.inl (by omega)
    have ht : (Char.ofNat (c.toNat + 32)).toNat = c.toNat + 32 :=
      charToNat_ofNat_valid _ hv
    rw [if_pos (by omega), if_neg (by omega), ht]
    have : c.toNat + 32 - 32 = c.toNat := by omega
    rw [this, Char.ofNat_toNat]
  · rw [if_neg h]

theorem pyUpper_pyUpper (s : String) : pyUpper (pyUpper s) = pyUpper s := by
  unfold pyUpper
  cases s with
  | mk data =>
    simp only [List.map_map]
    congr 1
    exact List.map_congr_left (fun c _ => toUpper_toUpper c)

theorem pyUpper_pyLower (s : String) : pyUpper (pyLower s) = pyUpper s := by
  unfold pyUpper pyLower
  cases s with
  | mk data =>
    simp only [List.map_map]
    congr 1
    exact List.map_congr_left (fun c _ => toUpper_toLower c)

/-! ## Counting lemmas -/

theorem countP_disjoint_le {α : Type} (p q : α → Bool)
    (hpq : ∀ a, p a = true → q a = true → False) (l : List α) :
    l.countP p + l.countP q ≤ l.length := by
  induction l with
  | nil => simp
  | cons a t ih =>
    simp only [List.countP_cons, List.length_cons]
    by_cases hp : p a = true
    · have hq : ¬ q a = true := fun hq => hpq a hp hq
      simp [hp, hq]
      omega
    · simp [hp]
      split <;> omega

theorem countP_disjoint_eq_iff {α : Type} (p q : α → Bool)
    (hpq : ∀ a, p a = true → q a = true → False) (l : List α) :
    l.countP p + l.countP q = l.length ↔ ∀ a ∈ l, p a = true ∨ q a = true := by
  induction l with
  | nil => simp
  | cons a t ih =>
    simp only [List.countP_cons, List.length_cons, List.mem_cons]
    have hle := countP_disjoint_le p q hpq t
    constructor
    · intro h x hx
      rcases hx with rfl | hx
      · by_cases hp : p x = true
        · exact Or.inl hp
        · by_cases hq : q x = true
          · exact Or.inr hq
          · simp [hp, hq] at h
            omega
      · have : t.countP p + t.countP q = t.length := by
          by_cases hp : p a = true
          · have hq : ¬ q a = true := fun hq => hpq a hp hq
            simp [hp, hq] at h
            omega
          · by_cases hq : q a = true
            · simp [hp, hq] at h
              omega
            · simp [hp, hq] at h
              omega
        exact (ih.mp this) x hx
    · intro h
      have ht : t.countP p + t.countP q = t.length :=
        ih.mpr (fun x hx => h x (Or.inr hx))
      rcases h a (Or.inl rfl) with hp | hq
      · have hq : ¬ q a = true := fun hq => hpq a hp hq
        simp [hp, hq]
        omega
      · have hp : ¬ p a = true := fun hp => hpq a hp hq
        simp [hp, hq]
        omega

theorem countP_le_one_of_unique {α : Type} (p : α → Bool) (l : List α)
    (hnd : l.Nodup) (huniq : ∀ a ∈ l, ∀ b ∈ l, p a = true → p b = true → a = b) :
    l.countP p ≤ 1 := by
  induction l with
  | nil => simp
  | cons a t ih =>
    have hnd' := List.Nodup.of_cons hnd
    simp only [List.countP_cons]
    by_cases hp : p a = true
    · have hzero : t.countP p = 0 := by
        rw [List.countP_eq_zero]
        intro b hb hpb
        have heq : b = a :=
          huniq b (List.mem_cons_of_mem a hb) a (List.mem_cons_self a t) hpb hp
        rw [heq] at hb
        exact (List.nodup_cons.mp hnd).1 hb
      simp [hp, hzero]
    · have := ih hnd' (fun x hx y hy => huniq x (List.mem_cons_of_mem a hx) y
        (List.mem_cons_of_mem a hy))
      simp [hp]
      omega

/-! ## Claim theorems -/

/-- Claim C1: find_non_followers returns exactly the subset of following whose
lowercased username is not among the lowercased follower usernames, and
find_fans the symmetric subset of followers; both preserve the order of the
list they filter and do not trim whitespace; on the example of the spec they
return the carol record and the bob record respectively. -/
theorem claim_C1_set_reconciler :
    (∀ fols fing r, r ∈ find_non_followers fols fing ↔
      r ∈ fing ∧ ∀ s ∈ fols, pyLower s.username ≠ pyLower r.username) ∧
    (∀ fols fing, (find_non_followers fols fing).Sublist fing) ∧
    (∀ fols fing r, r ∈ find_fans fols fing ↔
      r ∈ fols ∧ ∀ s ∈ fing, pyLower s.username ≠ pyLower r.username) ∧
    (∀ fols fing, (find_fans fols fing).Sublist fols) ∧
    find_non_followers [mkRec "alice", mkRec "bob"] [mkRec "ALICE", mkRec "carol"] =
      [mkRec "carol"] ∧
    find_fans [mkRec "alice", mkRec "bob"] [mkRec "ALICE", mkRec "carol"] =
      [mkRec "bob"] ∧
    find_non_followers [mkRec "alice"] [mkRec " alice"] = [mkRec " alice"] ∧
    find_fans [mkRec "bob "] [mkRec "bob"] = [mkRec "bob "] := by
  refine ⟨?_, ?_, ?_, ?_, by decide, by decide, by decide, by decide⟩
  · intro fols fing r
    simp [find_non_followers, List.mem_filter, List.elem_iff, List.mem_map]
  · intro fols fing
    exact List.filter_sublist fing
  · intro fols fing r
    simp [find_fans, List.mem_filter, List.elem_iff, List.mem_map]
  · intro fols fing
    exact List.filter_sublist fols

/-- Claim C4: parse_filename gives file_type following exactly when the
filename contains following case-insensitively and followers otherwise,
except that a match of the structured IGFollow pattern overrides all three
fields with the captured handle, count and lowercased keyword; the two
examples of the spec evaluate as stated. -/
theorem claim_C4_parse_filename :
    (∀ f : String, parse_filename f =
      match igfollowMatch f with
      | some r =>
        { ig_username := some r.1, count := some r.2.1, file_type := pyLower r.2.2 }
      | none =>
        { ig_username := none, count := none,
          file_type :=
            if hasSub "following".data (pyLower f).data then "following"
            else "followers" }) ∧
    parse_filename "IGFollow_jane_doe_42_following.csv" =
      ⟨some "jane_doe", some 42, "following"⟩ ∧
    parse_filename "followers_1.csv" = ⟨none, none, "followers"⟩ := by
  refine ⟨?_, by decide, by decide⟩
  intro f
  unfold parse_filename
  cases h : igfollowMatch f with
  | some r => simp [h]
  | none =>
    simp only [h]
    by_cases hA : hasSub "following".data (pyLower f).data
    · simp [hA]
    · simp [hA]

/-- Claim C6: the classifier returns the full input as followers, the YES
subset as both you_follow_back and mutual, the NO subset as both
you_dont_follow_back and fans, excludes records with an empty flag from both
subsets, and preserves input order in the subsets. -/
theorem claim_C6_classifier (recs : List CanonicalRecord) :
    (analyze_follow_status recs).followers = recs ∧
    (analyze_follow_status recs).you_follow_back = (analyze_follow_status recs).«mutual» ∧
    (analyze_follow_status recs).you_dont_follow_back = (analyze_follow_status recs).fans ∧
    (∀ r, r ∈ (analyze_follow_status recs).you_follow_back ↔
      r ∈ recs ∧ r.followed_by_you = "YES") ∧
    (∀ r, r ∈ (analyze_follow_status recs).you_dont_follow_back ↔
      r ∈ recs ∧ r.followed_by_you = "NO") ∧
    (∀ r ∈ recs, r.followed_by_you = "" →
      r ∉ (analyze_follow_status recs).you_follow_back ∧
      r ∉ (analyze_follow_status recs).you_dont_follow_back) ∧
    (analyze_follow_status recs).you_follow_back.Sublist recs ∧
    (analyze_follow_status recs).you_dont_follow_back.Sublist recs := by
  refine ⟨rfl, rfl, rfl, ?_, ?_, ?_, ?_, ?_⟩
  · intro r
    simp [analyze_follow_status, List.mem_filter]
  · intro r
    simp [analyze_follow_status, List.mem_filter]
  · intro r hr hempty
    constructor
    · simp [analyze_follow_status, List.mem_filter, hempty]
    · simp [analyze_follow_status, List.mem_filter, hempty]
  · exact List.filter_sublist recs
  · exact List.filter_sublist recs

/-- Claim C10: an empty filename behaves exactly like an omitted filename:
the returned metadata carries neither an ig_username nor a detected_type
entry. -/
theorem claim_C10_empty_filename :
    (∀ content, parse_instagram_csv content (some "") = parse_instagram_csv content none) ∧
    (∀ t, parseTable t (some "") = parseTable t none ∧
      (parseTable t (some "")).2.ig_username = none ∧
      (parseTable t (some "")).2.detected_type = none) := by
  constructor
  · intro content
    unfold parse_instagram_csv
    cases decodeContent content with
    | error e => rfl
    | ok s =>
      cases readCSV s with
      | error e => rfl
      | ok t => rfl
  · intro t
    exact ⟨rfl, rfl, rfl⟩

/-- Claim C5: parse_instagram_csv fails exactly when decoding or tabular
reading fails, and every other operation degrades to defined defaults instead
of failing: a table with no recognizable columns still yields records of
empty fields with the total preserved, an unmatched filename yields the
default metadata, and an unrecognized relationship flag lands in no bucket. -/
theorem claim_C5_error_handling :
    (∀ content fname,
      (∃ e, parse_instagram_csv content fname = .error e) ↔
        ((∃ e, decodeContent content = .error e) ∨
         (∃ s e, decodeContent content = .ok s ∧ readCSV s = .error e))) ∧
    parseTable ⟨["colA", "colB"], [[some "x", some "y"], [some "z", none]]⟩ none =
      ([⟨"", "", "", "", "", ""⟩, ⟨"", "", "", "", "", ""⟩],
        ⟨2, 0, 0, 0, none, none⟩) ∧
    parse_filename "export.txt" = ⟨none, none, "followers"⟩ ∧
    (analyze_follow_status [⟨"", "u", "", "MAYBE", "", ""⟩]).you_follow_back = [] ∧
    (analyze_follow_status [⟨"", "u", "", "MAYBE", "", ""⟩]).you_dont_follow_back = [] ∧
    parse_instagram_csv (.bytes [0x61, 0xFF]) none = .error .decodeError ∧
    parse_instagram_csv (.text "a,b\n\"x") none = .error .csvError ∧
    parse_instagram_csv (.text "a\nx,y") none = .error .csvError := by
  refine ⟨?_, by decide, by decide, by decide, by decide, by decide, by decide, by decide⟩
  intro content fname
  cases hd : decodeContent content with
  | error e =>
    constructor
    · intro _
      exact Or.inl ⟨e, rfl⟩
    · intro _
      exact ⟨e, by simp [parse_instagram_csv, hd]⟩
  | ok s =>
    cases hr : readCSV s with
    | error e =>
      constructor
      · intro _
        exact Or.inr ⟨s, e, rfl, hr⟩
      · intro _
        exact ⟨e, by simp [parse_instagram_csv, hd, hr]⟩
    | ok t =>
      constructor
      · intro ⟨e, he⟩
        simp [parse_instagram_csv, hd, hr] at he
      · intro h
        rcases h with ⟨e, he⟩ | ⟨s2, e, hs2, he⟩
        · simp [hd] at he
        · injection hs2 with h3
          subst h3
          simp [hr] at he

theorem rebuildRecord_eq (r : CanonicalRecord) :
    buildRecord (canonicalHeaders.zip
      (([some r.user_id, some r.username, some r.fullname, some r.followed_by_you,
         some r.is_verified, some r.profile_url]).map fillCell)) =
    { r with followed_by_you := pyUpper r.followed_by_you,
             is_verified := pyUpper r.is_verified } := rfl

theorem tableRecords_serialize (recs : List CanonicalRecord) :
    tableRecords (serializeTable recs) =
      recs.map (fun r =>
        { r with followed_by_you := pyUpper r.followed_by_you,
                 is_verified := pyUpper r.is_verified }) := by
  have hH : finalHeaders (serializeTable recs) = canonicalHeaders := by
    show applyRename (canonicalHeaders.map normalizeHeader) = canonicalHeaders
    decide
  show (serializeTable recs).rows.map
      (fun row => buildRecord ((finalHeaders (serializeTable recs)).zip (row.map fillCell))) = _
  rw [hH]
  show (recs.map (fun r =>
      [some r.user_id, some r.username, some r.fullname, some r.followed_by_you,
       some r.is_verified, some r.profile_url])).map
    (fun row => buildRecord (canonicalHeaders.zip (row.map fillCell))) = _
  rw [List.map_map]
  apply List.map_congr_left
  intro r _
  exact rebuildRecord_eq r

theorem tableRecords_flags (t : Table) (r : CanonicalRecord)
    (hr : r ∈ tableRecords t) :
    pyUpper r.followed_by_you = r.followed_by_you ∧
    pyUpper r.is_verified = r.is_verified := by
  unfold tableRecords at hr
  simp only [List.mem_map] at hr
  obtain ⟨row, _, rfl⟩ := hr
  exact ⟨pyUpper_pyUpper _, pyUpper_pyUpper _⟩

/-- Claim C8: running the Record Builder over its own output re-serialized
under the canonical headers reproduces the records exactly. -/
theorem claim_C8_record_builder_idempotent (t : Table) (fname fname2 : Option String) :
    (parseTable (serializeTable (parseTable t fname).1) fname2).1 = (parseTable t fname).1 := by
  show tableRecords (serializeTable (tableRecords t)) = tableRecords t
  rw [tableRecords_serialize]
  have h : ∀ r ∈ tableRecords t,
      ({ r with followed_by_you := pyUpper r.followed_by_you,
                is_verified := pyUpper r.is_verified } : CanonicalRecord) = id r := by
    intro r hr
    obtain ⟨h1, h2⟩ := tableRecords_flags t r hr
    cases r
    simp only [id]
    simp_all
  rw [List.map_congr_left h, List.map_id]

theorem computeMeta_counts (recs : List CanonicalRecord) (fn : Option String) :
    (computeMeta recs fn).total = recs.length ∧
    (computeMeta recs fn).following_back =
      recs.countP (fun r => r.followed_by_you == "YES") ∧
    (computeMeta recs fn).not_following_back =
      recs.countP (fun r => r.followed_by_you == "NO") ∧
    (computeMeta recs fn).verified = recs.countP (fun r => r.is_verified == "YES") := by
  unfold computeMeta
  cases fn with
  | none => exact ⟨rfl, rfl, rfl, rfl⟩
  | some f =>
    by_cases hf : f = ""
    · simp [hf]
    · simp [hf]

/-- Claim C2 (amended): the metadata of a successful parse counts the records,
the YES flags, the NO flags and the YES verifications; the two bucket counts
sum to at most the total, with equality exactly when every record carries a
YES or NO flag (any other value, the empty string included, counts toward
neither bucket). -/
theorem claim_C2_metadata_counts (content : Content) (fname : Option String)
    (recs : List CanonicalRecord) (meta : BatchMeta)
    (h : parse_instagram_csv content fname = .ok (recs, meta)) :
    meta.total = recs.length ∧
    meta.following_back = recs.countP (fun r => r.followed_by_you == "YES") ∧
    meta.not_following_back = recs.countP (fun r => r.followed_by_you == "NO") ∧
    meta.verified = recs.countP (fun r => r.is_verified == "YES") ∧
    meta.following_back + meta.not_following_back ≤ meta.total ∧
    (meta.following_back + meta.not_following_back = meta.total ↔
      ∀ r ∈ recs, r.followed_by_you = "YES" ∨ r.followed_by_you = "NO") := by
  have hdisj : ∀ r : CanonicalRecord,
      (r.followed_by_you == "YES") = true → (r.followed_by_you == "NO") = true → False := by
    intro r h1 h2
    rw [beq_iff_eq] at h1 h2
    rw [h1] at h2
    exact absurd h2 (by decide)
  unfold parse_instagram_csv at h
  split at h
  · exact absurd h (by simp)
  · split at h
    · exact absurd h (by simp)
    · rename_i t _
      simp only [Except.ok.injEq, parseTable, Prod.mk.injEq] at h
      obtain ⟨hrecs, hmeta⟩ := h
      subst hrecs
      subst hmeta
      obtain ⟨h1, h2, h3, h4⟩ := computeMeta_counts (tableRecords t) fname
      refine ⟨h1, h2, h3, h4, ?_, ?_⟩
      · rw [h1, h2, h3]
        exact countP_disjoint_le _ _ hdisj _
      · rw [h1, h2, h3]
        rw [countP_disjoint_eq_iff _ _ hdisj]
        constructor
        · intro hall r hrmem
          rcases hall r hrmem with hy | hn
          · exact Or.inl (by rwa [beq_iff_eq] at hy)
          · exact Or.inr (by rwa [beq_iff_eq] at hn)
        · intro hall r hrmem
          rcases hall r hrmem with hy | hn
          · exact Or.inl (by rwa [beq_iff_eq])
          · exact Or.inr (by rwa [beq_iff_eq])

/-- Witness for claim C2 at a concrete parse with one YES, one NO and one
empty flag. -/
theorem claim_C2_witness :
    parse_instagram_csv (.text "username,followed_by_you\na,yes\nb,no\nc,") none =
      .ok ([⟨"", "a", "", "YES", "", ""⟩, ⟨"", "b", "", "NO", "", ""⟩,
            ⟨"", "c", "", "", "", ""⟩], ⟨3, 1, 1, 0, none, none⟩) ∧
    (⟨3, 1, 1, 0, none, none⟩ : BatchMeta).following_back +
      (⟨3, 1, 1, 0, none, none⟩ : BatchMeta).not_following_back ≤
      (⟨3, 1, 1, 0, none, none⟩ : BatchMeta).total :=
  ⟨by decide,
   (claim_C2_metadata_counts (.text "username,followed_by_you\na,yes\nb,no\nc,") none
     [⟨"", "a", "", "YES", "", ""⟩, ⟨"", "b", "", "NO", "", ""⟩, ⟨"", "c", "", "", "", ""⟩]
     ⟨3, 1, 1, 0, none, none⟩ (by decide)).2.2.2.2.1⟩

/-- Counterexample to claim C2 as frozen: a parsed batch whose single record
has the flag MAYBE, which is not empty, yet following_back plus
not_following_back is 0 while total is 1, so equality fails although no
record has an empty followed_by_you. -/
theorem claim_C2_counterexample :
    parse_instagram_csv (.text "followed_by_you\nmaybe") none =
      .ok ([⟨"", "", "", "MAYBE", "", ""⟩], ⟨1, 0, 0, 0, none, none⟩) ∧
    (∀ r ∈ ([⟨"", "", "", "MAYBE", "", ""⟩] : List CanonicalRecord),
      r.followed_by_you ≠ "") ∧
    (0 + 0 : Nat) ≠ 1 := by decide

theorem pyUpper_mem_of_pyLower_mem (x : String)
    (h : pyLower x ∈ (["yes", "no", ""] : List String)) :
    pyUpper x ∈ (["YES", "NO", ""] : List String) := by
  have hx : pyUpper x = pyUpper (pyLower x) := (pyUpper_pyLower x).symm
  simp only [List.mem_cons, List.not_mem_nil, or_false] at h
  rcases h with h | h | h <;>
    · rw [hx, h]
      decide

/-- Claim C3 (amended): every built record has all six fields present as
strings by construction, with followed_by_you and is_verified the uppercased
source values; they are each one of YES, NO or empty whenever the source cell
is a case variant of yes or no, or empty or absent. -/
theorem claim_C3_record_fields (t : Table) (fname : Option String)
    (hflag : ∀ row ∈ t.rows,
      pyLower (rowGet ((finalHeaders t).zip (row.map fillCell)) "followed_by_you") ∈
        (["yes", "no", ""] : List String))
    (hver : ∀ row ∈ t.rows,
      pyLower (rowGet ((finalHeaders t).zip (row.map fillCell)) "is_verified") ∈
        (["yes", "no", ""] : List String)) :
    ∀ r ∈ (parseTable t fname).1,
      r.followed_by_you ∈ (["YES", "NO", ""] : List String) ∧
      r.is_verified ∈ (["YES", "NO", ""] : List String) := by
  intro r hr
  simp only [parseTable, tableRecords, List.mem_map] at hr
  obtain ⟨row, hrow, rfl⟩ := hr
  exact ⟨pyUpper_mem_of_pyLower_mem _ (hflag row hrow),
         pyUpper_mem_of_pyLower_mem _ (hver row hrow)⟩

/-- Witness for claim C3 at a concrete table with case variant flags and a
missing cell. -/
theorem claim_C3_witness :
    (∀ row ∈ (⟨["username", "followed_by_you", "is_verified"],
        [[some "u1", some "Yes", some "no"], [some "u2", none, some "YES"]]⟩ : Table).rows,
      pyLower (rowGet ((finalHeaders ⟨["username", "followed_by_you", "is_verified"],
        [[some "u1", some "Yes", some "no"], [some "u2", none, some "YES"]]⟩).zip
          (row.map fillCell)) "followed_by_you") ∈ (["yes", "no", ""] : List String)) ∧
    (∀ r ∈ (parseTable ⟨["username", "followed_by_you", "is_verified"],
        [[some "u1", some "Yes", some "no"], [some "u2", none, some "YES"]]⟩ none).1,
      r.followed_by_you ∈ (["YES", "NO", ""] : List String) ∧
      r.is_verified ∈ (["YES", "NO", ""] : List String)) :=
  ⟨by decide,
   claim_C3_record_fields
     ⟨["username", "followed_by_you", "is_verified"],
      [[some "u1", some "Yes", some "no"], [some "u2", none, some "YES"]]⟩
     none (by decide) (by decide)⟩

/-- Counterexample to claim C3 as frozen: a source cell reading maybe is
carried into the record as MAYBE, which is none of YES, NO or empty. -/
theorem claim_C3_counterexample :
    (parseTable ⟨["followed_by_you"], [[some "maybe"]]⟩ none).1 =
      [⟨"", "", "", "MAYBE", "", ""⟩] ∧
    ("MAYBE" : String) ∉ (["YES", "NO", ""] : List String) := by decide

theorem map_set_comm {α β : Type} (f : α → β) (l : List α) (i : Nat) (v : α) :
    (l.set i v).map f = (l.map f).set i (f v) := by
  induction l generalizing i with
  | nil => simp
  | cons a t ih =>
    cases i with
    | zero => simp
    | succ n => simp [ih]

theorem rowGet_zip_set (hs : List String) (row : List String) (i : Nat) (v : String)
    (name : String) (hne : hs.get? i ≠ some name) :
    rowGet (hs.zip (row.set i v)) name = rowGet (hs.zip row) name := by
  induction hs generalizing row i with
  | nil => simp [List.zip_nil_left]
  | cons h ht ih =>
    cases row with
    | nil => simp
    | cons c ct =>
      cases i with
      | zero =>
        have hname : h ≠ name := by simpa using hne
        simp [rowGet, hname]
      | succ n =>
        have hne' : ht.get? n ≠ some name := by simpa using hne
        show rowGet ((h, c) :: ht.zip (ct.set n v)) name =
          rowGet ((h, c) :: ht.zip ct) name
        simp only [rowGet]
        by_cases hn : h = name
        · simp [hn]
        · simp only [if_neg hn]
          exact ih ct n hne'

theorem buildRecord_set_avatar (hs : List String) (row : List String) (i : Nat)
    (v : String) (hav : hs.get? i = some "avatar_url") :
    buildRecord (hs.zip (row.set i v)) = buildRecord (hs.zip row) := by
  have hne : ∀ name : String, name ≠ "avatar_url" → hs.get? i ≠ some name := by
    intro name hn heq
    rw [hav] at heq
    injection heq with h3
    exact hn h3.symm
  unfold buildRecord
  rw [rowGet_zip_set hs row i v "user_id" (hne _ (by decide)),
      rowGet_zip_set hs row i v "username" (hne _ (by decide)),
      rowGet_zip_set hs row i v "fullname" (hne _ (by decide)),
      rowGet_zip_set hs row i v "followed_by_you" (hne _ (by decide)),
      rowGet_zip_set hs row i v "is_verified" (hne _ (by decide)),
      rowGet_zip_set hs row i v "profile_url" (hne _ (by decide))]

/-- Claim C9: the records of a parse carry exactly the six canonical fields;
the normalizer resolves an avatar_url column from any of its three accepted
spellings, yet the values of such a column never influence any output
record or the metadata. -/
theorem claim_C9_avatar_ignored (t : Table) (fname : Option String) (i : Nat)
    (f : Cell → Cell) (hav : (finalHeaders t).get? i = some "avatar_url") :
    parseTable (mapColumn t i f) fname = parseTable t fname ∧
    applyRename (["avatar_url"].map normalizeHeader) = ["avatar_url"] ∧
    applyRename (["avatar"].map normalizeHeader) = ["avatar_url"] ∧
    applyRename (["picture"].map normalizeHeader) = ["avatar_url"] ∧
    (∀ r ∈ (parseTable t fname).1,
      r = ⟨r.user_id, r.username, r.fullname, r.followed_by_you, r.is_verified,
           r.profile_url⟩) := by
  have hrec : tableRecords (mapColumn t i f) = tableRecords t := by
    unfold tableRecords mapColumn finalHeaders
    simp only [List.map_map]
    apply List.map_congr_left
    intro row _
    simp only [Function.comp]
    cases hc : row.get? i with
    | none => rfl
    | some c =>
      rw [map_set_comm]
      exact buildRecord_set_avatar _ _ i (fillCell (f c)) hav
  refine ⟨?_, by decide, by decide, by decide, fun r _ => rfl⟩
  unfold parseTable
  rw [hrec]

/-- Witness for claim C9: altering the cell of a resolved picture column
leaves the parse output unchanged. -/
theorem claim_C9_witness :
    (finalHeaders ⟨["username", "picture"], [[some "alice", some "x"]]⟩).get? 1 =
      some "avatar_url" ∧
    parseTable (mapColumn ⟨["username", "picture"], [[some "alice", some "x"]]⟩ 1
        (fun _ => some "CHANGED")) none =
      parseTable ⟨["username", "picture"], [[some "alice", some "x"]]⟩ none :=
  ⟨by decide,
   (claim_C9_avatar_ignored ⟨["username", "picture"], [[some "alice", some "x"]]⟩
     none 1 (fun _ => some "CHANGED") (by decide)).1⟩

theorem contains_iff_mem_str {l : List String} {a : String} :
    l.contains a = true ↔ a ∈ l := by
  simp [List.contains]

theorem column_map_std_unique :
    ∀ p ∈ column_map, ∀ q ∈ column_map, p.1 = q.1 → p = q := by decide

theorem column_map_var_disjoint :
    ∀ p ∈ column_map, ∀ q ∈ column_map, ∀ v ∈ p.2, v ∈ q.2 → p = q := by decide

theorem column_map_head_std : ∀ p ∈ column_map, p.2.head? = some p.1 := by decide

theorem chooseVariant_mem {cols variants : List String} {v : String}
    (h : chooseVariant cols variants = some v) : v ∈ variants ∧ v ∈ cols := by
  unfold chooseVariant at h
  refine ⟨List.mem_of_find?_eq_some h, ?_⟩
  exact contains_iff_mem_str.mp (List.find?_some h)

theorem rename_map_mem {cols : List String} {v std : String} :
    (v, std) ∈ rename_map cols ↔
      ∃ p ∈ column_map, p.1 = std ∧ chooseVariant cols p.2 = some v := by
  unfold rename_map
  rw [List.mem_filterMap]
  constructor
  · rintro ⟨p, hp, hf⟩
    cases hc : chooseVariant cols p.2 with
    | none =>
      rw [hc] at hf
      simp at hf
    | some w =>
      rw [hc] at hf
      simp at hf
      obtain ⟨h1, h2⟩ := hf
      exact ⟨p, hp, h2, by rw [hc, h1]⟩
  · rintro ⟨p, hp, h1, h2⟩
    refine ⟨p, hp, ?_⟩
    rw [h2]
    simp [h1]

theorem lookup_mem {l : List (String × String)} {k v : String}
    (h : l.lookup k = some v) : (k, v) ∈ l := by
  rw [List.lookup_eq_some_iff] at h
  obtain ⟨l₁, l₂, rfl, _⟩ := h
  simp

theorem lookup_of_mem_unique {l : List (String × String)} {k v : String}
    (hm : (k, v) ∈ l) (hu : ∀ v2, (k, v2) ∈ l → v2 = v) : l.lookup k = some v := by
  induction l with
  | nil => simp at hm
  | cons p t ih =>
    obtain ⟨a, b⟩ := p
    rw [List.lookup_cons]
    by_cases hk : k = a
    · subst hk
      have hb : b = v := hu b (List.mem_cons_self _ _)
      simp [hb]
    · have hbeq : (k == a) = false := by simp [hk]
      rw [hbeq]
      apply ih
      · rcases List.mem_cons.mp hm with h | h
        · exact absurd (congrArg Prod.fst h) hk
        · exact h
      · intro v2 hv2
        exact hu v2 (List.mem_cons_of_mem _ hv2)

theorem renameHdr_to_std {cols : List String} {std : String} {vars : List String}
    {h : String} (hmem : (std, vars) ∈ column_map) (hcol : h ∈ cols)
    (hrn : renameHdr cols h = std) : chooseVariant cols vars = some h := by
  unfold renameHdr at hrn
  cases hl : (rename_map cols).lookup h with
  | some s =>
    rw [hl] at hrn
    simp only [Option.getD_some] at hrn
    have hmem2 := lookup_mem hl
    rw [hrn] at hmem2
    rw [rename_map_mem] at hmem2
    obtain ⟨q, hq, hq1, hq2⟩ := hmem2
    have hqe : q = (std, vars) :=
      column_map_std_unique q hq (std, vars) hmem (by rw [hq1])
    rw [hqe] at hq2
    exact hq2
  | none =>
    rw [hl] at hrn
    simp only [Option.getD_none] at hrn
    have hh := column_map_head_std (std, vars) hmem
    cases vars with
    | nil => simp at hh
    | cons v0 tl =>
      simp only [List.head?_cons, Option.some.injEq] at hh
      have hmemc : std ∈ cols := by
        rw [← hrn]
        exact hcol
      rw [hh, hrn]
      unfold chooseVariant
      simp [List.find?, hmemc]

/-- Claim C7 (amended): for each canonical field, the first accepted spelling
present among the normalized headers is renamed to the canonical name and
later matching spellings are left unrenamed; when the normalized headers are
pairwise distinct, at most one column ends up bearing the canonical name.
When two raw headers normalize to the same chosen spelling, df.rename renames
them all, so distinctness is required for the at-most-one guarantee. -/
theorem claim_C7_first_match_renaming (cols0 : List String)
    (hnd : (cols0.map normalizeHeader).Nodup) (std : String) (vars : List String)
    (hmem : (std, vars) ∈ column_map) :
    (applyRename (cols0.map normalizeHeader)).count std ≤ 1 ∧
    (∀ v, chooseVariant (cols0.map normalizeHeader) vars = some v →
      renameHdr (cols0.map normalizeHeader) v = std) ∧
    (∀ v w, chooseVariant (cols0.map normalizeHeader) vars = some v →
      w ∈ vars → w ≠ v → renameHdr (cols0.map normalizeHeader) w = w) := by
  set cols := cols0.map normalizeHeader with hcols
  refine ⟨?_, ?_, ?_⟩
  · unfold applyRename
    rw [List.count_eq_countP, List.countP_map]
    apply countP_le_one_of_unique _ _ hnd
    intro a ha b hb hpa hpb
    simp only [Function.comp, beq_iff_eq] at hpa hpb
    have h1 := renameHdr_to_std hmem ha hpa
    have h2 := renameHdr_to_std hmem hb hpb
    rw [h1] at h2
    exact Option.some.inj h2
  · intro v hv
    have hmm : (v, std) ∈ rename_map cols :=
      rename_map_mem.mpr ⟨(std, vars), hmem, rfl, hv⟩
    have huniq : ∀ s2, (v, s2) ∈ rename_map cols → s2 = std := by
      intro s2 hs2
      rw [rename_map_mem] at hs2
      obtain ⟨q, hq, hq1, hq2⟩ := hs2
      have hvq : v ∈ q.2 := (chooseVariant_mem hq2).1
      have hvv : v ∈ vars := (chooseVariant_mem hv).1
      have hqe : (std, vars) = q :=
        column_map_var_disjoint (std, vars) hmem q hq v hvv hvq
      rw [← hqe] at hq1
      exact hq1.symm
    unfold renameHdr
    rw [lookup_of_mem_unique hmm huniq]
    rfl
  · intro v w hv hw hneq
    have hl : (rename_map cols).lookup w = none := by
      rw [List.lookup_eq_none_iff]
      rintro ⟨a, b⟩ hp
      simp only [bne_iff_ne, ne_eq]
      intro hwa
      subst hwa
      rw [rename_map_mem] at hp
      obtain ⟨q, hq, hq1, hq2⟩ := hp
      have hwq : w ∈ q.2 := (chooseVariant_mem hq2).1
      have hqe : (std, vars) = q :=
        column_map_var_disjoint (std, vars) hmem q hq w hw hwq
      rw [← hqe] at hq2
      rw [hv] at hq2
      injection hq2 with h3
      exact hneq h3.symm
    unfold renameHdr
    rw [hl]
    rfl

/-- Witness for claim C7 over the headers Username, handle, user name: the
spelling username is present first and is the only column renamed to the
canonical username, while the later matching spellings stay unrenamed. -/
theorem claim_C7_witness :
    ((["Username", "handle", "user name"].map normalizeHeader).Nodup) ∧
    ("username", ["username", "user_name", "handle"]) ∈ column_map ∧
    (applyRename (["Username", "handle", "user name"].map normalizeHeader)).count
      "username" ≤ 1 :=
  ⟨by decide, by decide,
   (claim_C7_first_match_renaming ["Username", "handle", "user name"] (by decide)
     "username" ["username", "user_name", "handle"] (by decide)).1⟩

/-- Counterexample to claim C7 as frozen: the raw headers User Name and
user name both normalize to the spelling user_name, the first accepted
present spelling of the username field, and df.rename renames both columns,
so two input columns receive the canonical name username. -/
theorem claim_C7_counterexample :
    applyRename (["User Name", "user name"].map normalizeHeader) =
      ["username", "username"] ∧
    ¬ (applyRename (["User Name", "user name"].map normalizeHeader)).count
        "username" ≤ 1 := by decide

/-- Witness for claim C1: the reconciliation result is an order preserving
sublist on a concrete input. -/
theorem claim_C1_witness :
    (find_non_followers [mkRec "alice"] [mkRec "carol"]).Sublist [mkRec "carol"] :=
  claim_C1_set_reconciler.2.1 [mkRec "alice"] [mkRec "carol"]

/-- Witness for claim C4 at the structured example of the spec. -/
theorem claim_C4_witness :
    parse_filename "IGFollow_jane_doe_42_following.csv" =
      ⟨some "jane_doe", some 42, "following"⟩ :=
  claim_C4_parse_filename.2.1

/-- Witness for claim C5: an unrecognized filename degrades to the default
metadata. -/
theorem claim_C5_witness :
    parse_filename "export.txt" = ⟨none, none, "followers"⟩ :=
  claim_C5_error_handling.2.2.1

/-- Witness for claim C6 on a one record input. -/
theorem claim_C6_witness :
    (analyze_follow_status [mkRec "z"]).followers = [mkRec "z"] :=
  (claim_C6_classifier [mkRec "z"]).1

/-- Witness for claim C8 on a concrete one row table. -/
theorem claim_C8_witness :
    (parseTable (serializeTable
      (parseTable ⟨["username"], [[some "a"]]⟩ none).1) none).1 =
    (parseTable ⟨["username"], [[some "a"]]⟩ none).1 :=
  claim_C8_record_builder_idempotent ⟨["username"], [[some "a"]]⟩ none none

/-- Witness for claim C10 on concrete content. -/
theorem claim_C10_witness :
    parse_instagram_csv (.text "a\nb") (some "") =
      parse_instagram_csv (.text "a\nb") none :=
  claim_C10_empty_filename.1 (.text "a\nb")
